import Mathlib

/-!
# Verification of the living-hive placement engine

Shallow embedding of the placement engine of the `living-hive` repository:

* hex-grid coordinate math and the spiral collision resolver
  (`src/workers/umap-placement.worker.ts` and the hex utility module),
* the placement orchestrator of the worker (everything downstream of the
  external UMAP `fit` call, which is modelled by an explicit list of 2D
  points, one per story),
* the hook-level entry point (`src/hooks/useUMAPPlacement.ts`),
* the theme assignment engine (`src/utils/themes.ts`).

Numeric conventions: the source computes with JavaScript numbers; we model
them by an arbitrary linearly ordered field `α` with a floor function, and
the constant `Math.sqrt(3)` becomes an explicit parameter `s3`; theorems
instantiate `α := ℝ` and `s3 := Real.sqrt 3`.  `Math.round(x)` in
JavaScript equals `⌊x + 1/2⌋`, which is Mathlib's `round`.  JavaScript
`Set<string>` of `"q,r"` keys is modelled by its characteristic function on
hex coordinates (the key encoding is injective).  JavaScript `Map` is
modelled by an insertion-ordered association list with overwriting `set`.
-/

/-- Axial hex coordinate, `interface HexCoordinate { q, r }` of `types.ts`
(integral throughout the placement engine). -/
structure HexCoordinate where
  q : Int
  r : Int
deriving DecidableEq, Repr

/-- Pixel coordinate, `interface PixelCoordinate { x, y }` of `types.ts`. -/
structure PixelCoordinate (α : Type) where
  x : α
  y : α
deriving Repr

/-- Fractional cube coordinates, the `{q, r, s}` argument of `cubeRound`. -/
structure CubeCoordinate (α : Type) where
  q : α
  r : α
  s : α

/-- `UMAPNormalization` of `types.ts`. -/
structure UMAPNormalization (α : Type) where
  min_x : α
  max_x : α
  min_y : α
  max_y : α

/-- `PlacementConfig` of `types.ts`. -/
structure PlacementConfig (α : Type) where
  canvasWidth : α
  canvasHeight : α
  hexRadius : α
  margin : α

/-- `StoryWithEmbedding` of `types.ts` (`cluster_id` is optional). -/
structure StoryWithEmbedding (α : Type) where
  id : String
  text : String
  embedding : List α
  cluster_id : Option String

/-- `BaseStory` of `types.ts`. -/
structure BaseStory where
  id : String
  text : String

/-- `Theme` of `types.ts`. -/
structure Theme where
  id : String
  label : String

/-- The occupancy set `occupied: Set<string>` of `"q,r"` keys, modelled by
its characteristic function (the key encoding `q ↦ "q,r"` is injective on
integer coordinates). -/
def OccSet : Type := HexCoordinate → Bool

/-- The empty `Set<string>`. -/
def emptyOcc : OccSet := fun _ => false

/-- `occupied.add(`${h.q},${h.r}`)`. -/
def addOcc (occ : OccSet) (h : HexCoordinate) : OccSet :=
  fun h2 => decide (h2 = h) || occ h2

/-- `getHexNeighbors` (worker and hex utility module): the six axial
direction offsets `(+1,0),(+1,-1),(0,-1),(-1,0),(-1,+1),(0,+1)` applied to
`hex`. -/
def getHexNeighbors (h : HexCoordinate) : List HexCoordinate :=
  [⟨h.q + 1, h.r⟩, ⟨h.q + 1, h.r - 1⟩, ⟨h.q, h.r - 1⟩,
   ⟨h.q - 1, h.r⟩, ⟨h.q - 1, h.r + 1⟩, ⟨h.q, h.r + 1⟩]

/-- One step of the ring walk of `findAvailableHex`:
`current = getHexNeighbors(current)[direction]`.  The default value of
`getD` is never used for direction indices `0..5`. -/
def hexStep (d : Nat) (h : HexCoordinate) : HexCoordinate :=
  (getHexNeighbors h).getD d h

/-- Iterated `hexStep`, used to describe positions along the ring walk:
`moveN d h n` walks `n` steps in direction index `d` starting at `h`. -/
def moveN (d : Nat) : HexCoordinate → Nat → HexCoordinate
  | h, 0 => h
  | h, n + 1 => moveN d (hexStep d h) n

/-- The inner loop `for (let i = 0; i < radius; i++)` of `findAvailableHex`
for one direction: test the current cell, return it if free (`Sum.inl`),
otherwise step; if all `n` cells are occupied return the final position
(`Sum.inr`). -/
def segScan (occ : OccSet) (d : Nat) : HexCoordinate → Nat → HexCoordinate ⊕ HexCoordinate
  | cur, 0 => .inr cur
  | cur, n + 1 =>
    if occ cur then segScan occ d (hexStep d cur) n
    else .inl cur

/-- The `for (const direction of directions)` loop of `findAvailableHex`:
walk the ring through the listed direction indices, `radius` steps each. -/
def ringScan (occ : OccSet) (radius : Nat) : HexCoordinate → List Nat → Option HexCoordinate
  | _, [] => none
  | cur, d :: ds =>
    match segScan occ d cur radius with
    | .inl h => some h
    | .inr cur2 => ringScan occ radius cur2 ds

/-- The `for (let radius = 1; radius <= maxRadius; radius++)` loop of
`findAvailableHex`, with the remaining number of rings as fuel: the ring at
`radius` starts `radius` steps in direction index 4 from the center and is
walked through direction indices `[0,1,2,3,4,5]`. -/
def searchFrom (occ : OccSet) (center : HexCoordinate) : Nat → Nat → Option HexCoordinate
  | _, 0 => none
  | radius, rem + 1 =>
    match ringScan occ radius (moveN 4 center radius) [0, 1, 2, 3, 4, 5] with
    | some h => some h
    | none => searchFrom occ center (radius + 1) rem

/-- `findAvailableHex(center, occupied, maxRadius)` of the worker (the hex
utility module contains the identical function with default
`maxRadius = 10`; the worker's default, and the value passed by
`placeStory`, is 200): return `center` if free, otherwise spiral outward
ring by ring and return the first free cell in walk order, or `null` when
every scanned cell up to `maxRadius` is occupied. -/
def findAvailableHex (center : HexCoordinate) (occ : OccSet) (maxRadius : Nat) :
    Option HexCoordinate :=
  if occ center then searchFrom occ center 1 maxRadius else some center

/-- The numerator of `hexDistance`:
`|a.q-b.q| + |a.q+a.r-b.q-b.r| + |a.r-b.r|` as a natural number. -/
def hexDistSum (a b : HexCoordinate) : Nat :=
  (a.q - b.q).natAbs + (a.q + a.r - b.q - b.r).natAbs + (a.r - b.r).natAbs

/-- `hexDistance` of the hex utility module:
`(|a.q-b.q| + |a.q+a.r-b.q-b.r| + |a.r-b.r|) / 2`. -/
def hexDistance (a b : HexCoordinate) : ℚ :=
  (hexDistSum a b : ℚ) / 2

/-- The cells tested by the ring walk that starts at `cur` and goes through
the given direction indices, `radius` cells per direction (the cells of
`ringScan` in visit order). -/
def walkCells (radius : Nat) : HexCoordinate → List Nat → List HexCoordinate
  | _, [] => []
  | cur, d :: ds =>
    (List.range radius).map (moveN d cur) ++ walkCells radius (moveN d cur radius) ds

/-- The cells tested at ring `radius` of `findAvailableHex`, in visit
order. -/
def ringCells (center : HexCoordinate) (radius : Nat) : List HexCoordinate :=
  walkCells radius (moveN 4 center radius) [0, 1, 2, 3, 4, 5]

/-- All cells tested by `findAvailableHex` after the center test, in visit
order: rings `1 .. maxRadius`. -/
def searchPath (center : HexCoordinate) (maxRadius : Nat) : List HexCoordinate :=
  ((List.range maxRadius).map (fun i => ringCells center (i + 1))).flatten

section NumericPipeline

variable {α : Type} [LinearOrderedField α] [FloorRing α]

/-- `cubeRound` of the worker (and, identically, of the hex utility
module): round each cube coordinate with `Math.round` (= `⌊x + 1/2⌋`),
then recompute the coordinate with the largest rounding error from the
other two; the result is the axial pair `{q: rq, r: rr}`. -/
def cubeRound (c : CubeCoordinate α) : HexCoordinate :=
  let rq := ⌊c.q + 1 / 2⌋
  let rr := ⌊c.r + 1 / 2⌋
  let rs := ⌊c.s + 1 / 2⌋
  let qDiff := |(rq : α) - c.q|
  let rDiff := |(rr : α) - c.r|
  let sDiff := |(rs : α) - c.s|
  if qDiff > rDiff ∧ qDiff > sDiff then ⟨-rr - rs, rr⟩
  else if rDiff > sDiff then ⟨rq, -rq - rs⟩
  else ⟨rq, rr⟩

/-- `hexToPixel(hex, hexRadius)` of the hex utility module.  `s3` stands
for `Math.sqrt(3)`. -/
def hexToPixel (s3 : α) (h : HexCoordinate) (hexRadius : α) : PixelCoordinate α :=
  ⟨hexRadius * ((3 / 2) * (h.q : α)),
   hexRadius * ((s3 / 2) * (h.q : α) + s3 * (h.r : α))⟩

/-- `pixelToHex(pixel, hexRadius)` of the worker (and, identically, of the
hex utility module).  `s3` stands for `Math.sqrt(3)`. -/
def pixelToHex (s3 : α) (p : PixelCoordinate α) (hexRadius : α) : HexCoordinate :=
  let q := ((2 / 3) * p.x) / hexRadius
  let r := ((-1 / 3) * p.x + (s3 / 3) * p.y) / hexRadius
  cubeRound ⟨q, r, -q - r⟩

/-- `normalizeUMAP(x, y, norm)` of the worker: scale into `[0,1]²` and
clamp (`Math.max(0, Math.min(1, _))`). -/
def normalizeUMAP (x y : α) (norm : UMAPNormalization α) : α × α :=
  let nx := (x - norm.min_x) / (norm.max_x - norm.min_x)
  let ny := (y - norm.min_y) / (norm.max_y - norm.min_y)
  (max 0 (min 1 nx), max 0 (min 1 ny))

/-- The ideal (pre-collision) hex of `placeStory`: normalized point to
pixel (with vertical flip), recentred on the canvas center, then
`pixelToHex`. -/
def idealHexFor (s3 x y : α) (norm : UMAPNormalization α) (config : PlacementConfig α) :
    HexCoordinate :=
  let n := normalizeUMAP x y norm
  let px := config.margin + n.1 * (config.canvasWidth - 2 * config.margin)
  let py := config.margin + (1 - n.2) * (config.canvasHeight - 2 * config.margin)
  let centerX := config.canvasWidth / 2
  let centerY := config.canvasHeight / 2
  pixelToHex s3 ⟨px - centerX, py - centerY⟩ config.hexRadius

/-- `placeStory` of the worker: compute the ideal hex, resolve collisions
with `findAvailableHex(idealHex, occupiedCells, 200)`, and fall back to the
ideal (already occupied) hex when the resolver returns `null`. -/
def placeStory (s3 x y : α) (norm : UMAPNormalization α) (occ : OccSet)
    (config : PlacementConfig α) : HexCoordinate :=
  let idealHex := idealHexFor s3 x y norm config
  match findAvailableHex idealHex occ 200 with
  | none => idealHex
  | some h => h

/-- JavaScript truthiness of the optional `cluster_id` string: absent and
`""` are falsy. -/
def truthyHint : Option String → Bool
  | none => false
  | some s => decide (s ≠ "")

/-- Sign of `String.prototype.localeCompare`, modelled as lexicographic
string comparison. -/
def localeCompareInt (x y : String) : Int :=
  if x < y then -1 else if y < x then 1 else 0

/-- The sort comparator of `computePlacement`:
`if (a.cluster_id && b.cluster_id) return a.cluster_id.localeCompare(b.cluster_id);
if (a.cluster_id) return -1; if (b.cluster_id) return 1; return 0`. -/
def storyCmp (a b : StoryWithEmbedding α) : Int :=
  if truthyHint a.cluster_id && truthyHint b.cluster_id then
    localeCompareInt (a.cluster_id.getD "") (b.cluster_id.getD "")
  else if truthyHint a.cluster_id then -1
  else if truthyHint b.cluster_id then 1
  else 0

/-- `storyCmp a b ≤ 0`, the ordering used to model
`[...stories].sort(comparator)` (the comparator is a total preorder, so the
stable sorted permutation is unique and `mergeSort` computes it). -/
def storyLE (a b : StoryWithEmbedding α) : Bool :=
  decide (storyCmp a b ≤ 0)

/-- `const sortedStories = [...stories].sort(comparator)`. -/
def sortStories (stories : List (StoryWithEmbedding α)) : List (StoryWithEmbedding α) :=
  stories.mergeSort storyLE

/-- The `storyUMAP` map of the worker, built by
`stories.forEach((story, index) => storyUMAP.set(story.id, coords[index]))`
(later `set`s overwrite earlier ones); the worker only runs it when `fit`
returned one coordinate pair per story, so the index-aligned pairs are
modelled by `zip`. -/
def buildUMAPMap (stories : List (StoryWithEmbedding α)) (coords : List (α × α)) :
    String → Option (α × α) :=
  (stories.zip coords).foldl
    (fun m sc => fun id => if id = sc.1.id then some sc.2 else m id)
    (fun _ => none)

/-- `Map.set` on an insertion-ordered association list: overwrite in place
if the key exists, otherwise append. -/
def mapSet (m : List (String × HexCoordinate)) (k : String) (v : HexCoordinate) :
    List (String × HexCoordinate) :=
  if m.any (fun p => decide (p.1 = k)) then
    m.map (fun p => if p.1 = k then (k, v) else p)
  else m ++ [(k, v)]

/-- The main placement loop of the worker's `computePlacement`: for each
story in sorted order, look up its UMAP coordinate (`continue` when
missing), place it, record the placement and mark the cell occupied. -/
def placeLoop (s3 : α) (m : String → Option (α × α)) (norm : UMAPNormalization α)
    (config : PlacementConfig α) :
    List (StoryWithEmbedding α) → List (String × HexCoordinate) → OccSet →
      List (String × HexCoordinate) × OccSet
  | [], pl, occ => (pl, occ)
  | s :: rest, pl, occ =>
    match m s.id with
    | none => placeLoop s3 m norm config rest pl occ
    | some c =>
      let h := placeStory s3 c.1 c.2 norm occ config
      placeLoop s3 m norm config rest (mapSet pl s.id h) (addOcc occ h)

/-- `nNeighbors` computed by the worker's `computePlacement` from the story
count (`Math.floor(Math.sqrt(n))` is `Nat.sqrt` on naturals):
`maxNeighbors = max(2, n-1)`, `calculated = min(15, max(2, ⌊√n⌋))`,
`nNeighbors = min(calculated, maxNeighbors)`. -/
def nNeighborsFor (n : Nat) : Nat :=
  let maxNeighbors := max 2 (n - 1)
  let calculatedNeighbors := min 15 (max 2 (Nat.sqrt n))
  min calculatedNeighbors maxNeighbors

/-- The worker's `computePlacement` downstream of the external UMAP `fit`
call, whose output is the explicit coordinate list `coords` (one 2D point
per story): empty input returns an empty result before the reduction
stage; fewer than 2 stories throws; otherwise sort, place and collect. -/
def workerComputePlacement (s3 : α) (stories : List (StoryWithEmbedding α))
    (coords : List (α × α)) (norm : UMAPNormalization α) (config : PlacementConfig α) :
    Except String (List (String × HexCoordinate)) :=
  if stories.length = 0 then .ok []
  else if stories.length < 2 then .error "Need at least 2 stories to compute UMAP"
  else
    .ok (placeLoop s3 (buildUMAPMap stories coords) norm config
      (sortStories stories) [] emptyOcc).1

/-- The statement that the placement loop never exhausts the collision
search: along the run on the given story list, `findAvailableHex` with
`maxRadius = 200` never returns `null`. -/
def NoExhaustRun (s3 : α) (m : String → Option (α × α)) (norm : UMAPNormalization α)
    (config : PlacementConfig α) : List (StoryWithEmbedding α) → OccSet → Prop
  | [], _ => True
  | s :: rest, occ =>
    match m s.id with
    | none => NoExhaustRun s3 m norm config rest occ
    | some c =>
      findAvailableHex (idealHexFor s3 c.1 c.2 norm config) occ 200 ≠ none ∧
      NoExhaustRun s3 m norm config rest (addOcc occ (placeStory s3 c.1 c.2 norm occ config))

/-- Outcome of the hook-level `computePlacement` of `useUMAPPlacement`:
either an immediately returned result, or a dispatch of the request to the
worker (which runs the reduction stage). -/
inductive HookOutcome (α : Type) where
  | immediate (placements : List (String × HexCoordinate))
  | dispatch (stories : List (StoryWithEmbedding α)) (norm : UMAPNormalization α)
      (config : PlacementConfig α)

/-- The hook-level `computePlacement` of `useUMAPPlacement.ts`: empty input
returns an empty map; a single story is placed at `{q:0, r:0}` without
involving the worker; otherwise the request is posted to the worker. -/
def hookComputePlacement (stories : List (StoryWithEmbedding α))
    (norm : UMAPNormalization α) (config : PlacementConfig α) : HookOutcome α :=
  if stories.length = 0 then .immediate []
  else if stories.length < 2 then
    .immediate [((stories.headD ⟨"", "", [], none⟩).id, ⟨0, 0⟩)]
  else .dispatch stories norm config

/-- `cosineSimilarity` of `themes.ts`: `0` on length mismatch, otherwise
dot product over the product of norms.  `sqrtFn` stands for `Math.sqrt`. -/
def cosineSimilarity (sqrtFn : α → α) (a b : List α) : α :=
  if a.length ≠ b.length then 0
  else
    let dotProduct := ((a.zip b).map (fun p => p.1 * p.2)).sum
    let normA := (a.map (fun v => v * v)).sum
    let normB := (b.map (fun v => v * v)).sum
    dotProduct / (sqrtFn normA * sqrtFn normB)

/-- The nearest-centroid selection of `kMeansClustering`: fold over the
centroids tracking `(nearestCentroid, minDistance)` with
`minDistance = Infinity` initially (modelled by `none`) and
`dist = 1 - cosineSimilarity`, updating on strict `<`. -/
def nearestCentroidIdx (sqrtFn : α → α) (e : List α) (centroids : List (List α)) : Nat :=
  (centroids.foldl
    (fun st c =>
      let dist := 1 - cosineSimilarity sqrtFn e c
      match st with
      | (_, none, idx) => (idx, some dist, idx + 1)
      | (best, some m, idx) =>
        if dist < m then (idx, some dist, idx + 1) else (best, some m, idx + 1))
    ((0, none, 0) : Nat × Option α × Nat)).1

/-- Componentwise vector addition used by the centroid recomputation
(`point.forEach((val, i) => centroid[i] += val)`). -/
def addVec : List α → List α → List α
  | [], p => p
  | a, [] => a
  | a :: as_, v :: vs => (a + v) :: addVec as_ vs

/-- Recomputation of one centroid in `kMeansClustering`: mean of the
cluster's points, or the old centroid when the cluster is empty. -/
def recomputeCentroid (embeddings : List (List α)) (assignments : List Nat)
    (dimension : Nat) (cIdx : Nat) (old : List α) : List α :=
  let clusterPoints :=
    ((embeddings.zip assignments).filter (fun p => decide (p.2 = cIdx))).map Prod.fst
  if clusterPoints.length = 0 then old
  else
    (clusterPoints.foldl addVec (List.replicate dimension 0)).map
      (fun v => v / (clusterPoints.length : α))

/-- The iteration loop of `kMeansClustering` (up to `maxIterations`
rounds): assign every point to its nearest centroid, stop when assignments
did not change, otherwise recompute centroids and continue. -/
def kMeansIter (sqrtFn : α → α) (embeddings : List (List α)) (dimension : Nat) :
    Nat → List (List α) → List Nat → List Nat
  | 0, _, assignments => assignments
  | n + 1, centroids, assignments =>
    let newAssignments := embeddings.map (fun e => nearestCentroidIdx sqrtFn e centroids)
    if newAssignments = assignments then assignments
    else
      kMeansIter sqrtFn embeddings dimension n
        (centroids.enum.map (fun p => recomputeCentroid embeddings newAssignments dimension p.1 p.2))
        newAssignments

/-- `kMeansClustering(embeddings, k, maxIterations)` of `themes.ts`.
`rand i` models the `i`-th draw `Math.floor(Math.random() * length)` of the
random centroid initialization. -/
def kMeansClustering (sqrtFn : α → α) (embeddings : List (List α)) (k : Nat)
    (rand : Nat → Nat) (maxIterations : Nat) : List Nat :=
  if embeddings.length = 0 then []
  else if k ≥ embeddings.length then List.range embeddings.length
  else
    let dimension := (embeddings.headD []).length
    let centroids := (List.range k).map (fun i => embeddings.getD (rand i) [])
    kMeansIter sqrtFn embeddings dimension maxIterations centroids
      (List.replicate embeddings.length 0)

/-- `stories.filter((s) => embeddings.has(s.id))` of
`assignStoriesToThemes`. -/
def validStoriesFor (stories : List BaseStory) (embeddings : String → Option (List α)) :
    List BaseStory :=
  stories.filter (fun s => (embeddings s.id).isSome)

/-- The intermediate `clusterAssignments` of `assignStoriesToThemes`:
k-means over the valid stories' embeddings with
`k = min(themes.length, validStories.length)`. -/
def clusterAssignmentsFor (sqrtFn : α → α) (stories : List BaseStory)
    (embeddings : String → Option (List α)) (themes : List Theme) (rand : Nat → Nat) :
    List Nat :=
  let validStories := validStoriesFor stories embeddings
  kMeansClustering sqrtFn (validStories.map (fun s => (embeddings s.id).getD []))
    (min themes.length validStories.length) rand 100

/-- `Map.set` on a string-valued insertion-ordered association list. -/
def strMapSet (m : List (String × String)) (k v : String) : List (String × String) :=
  if m.any (fun p => decide (p.1 = k)) then
    m.map (fun p => if p.1 = k then (k, v) else p)
  else m ++ [(k, v)]

/-- `assignStoriesToThemes(stories, embeddings, themes)` of `themes.ts`:
empty themes or stories give an empty map; otherwise cluster the valid
stories and map cluster index `c` to `themes[c % themes.length].id`. -/
def assignStoriesToThemes (sqrtFn : α → α) (stories : List BaseStory)
    (embeddings : String → Option (List α)) (themes : List Theme) (rand : Nat → Nat) :
    List (String × String) :=
  if themes.length = 0 ∨ stories.length = 0 then []
  else
    let validStories := validStoriesFor stories embeddings
    if validStories.length = 0 then []
    else
      let clusterAssignments := clusterAssignmentsFor sqrtFn stories embeddings themes rand
      (validStories.zip clusterAssignments).foldl
        (fun m p => strMapSet m p.1.id (themes.getD (p.2 % themes.length) ⟨"", ""⟩).id) []

end NumericPipeline

/-! Definitions written from the spec's words, for comparison with the
source-derived definitions above. -/

/-- Modelled from the spec: `clamp(x, lo, hi)` as used by the spec's
`nNeighbors = clamp(floor(sqrt(N)), 2, min(15, N-1))` formula, with the
lower bound dominating when the bounds cross. -/
def claimedNNeighbors (n : Nat) : Nat :=
  max 2 (min (Nat.sqrt n) (min 15 (n - 1)))

/-- Modelled from the spec: the ring-1 cells of `center` in the spec's
claimed neighbor-direction visit order `4, 0, 1, 2, 3, 5`. -/
def claimedVisitOrder (center : HexCoordinate) : List HexCoordinate :=
  [hexStep 4 center, hexStep 0 center, hexStep 1 center,
   hexStep 2 center, hexStep 3 center, hexStep 5 center]

/-- The ring-1 cells of `center` in the order `findAvailableHex` actually
visits them: neighbor-direction indices `4, 5, 0, 1, 2, 3`. -/
def ring1VisitOrder (center : HexCoordinate) : List HexCoordinate :=
  [hexStep 4 center, hexStep 5 center, hexStep 0 center,
   hexStep 1 center, hexStep 2 center, hexStep 3 center]

/-- Occupancy pattern for the ring-1 scenario: the center `(0,0)` is
occupied, and neighbor `i` (in `getHexNeighbors` order) is occupied iff
`b_i` is `true`. -/
def occPattern (b0 b1 b2 b3 b4 b5 : Bool) : OccSet := fun h =>
  decide (h = ⟨0, 0⟩) || (b0 && decide (h = ⟨1, 0⟩)) || (b1 && decide (h = ⟨1, -1⟩))
    || (b2 && decide (h = ⟨0, -1⟩)) || (b3 && decide (h = ⟨-1, 0⟩))
    || (b4 && decide (h = ⟨-1, 1⟩)) || (b5 && decide (h = ⟨0, 1⟩))

/-- Modelled from the spec: the claim that in the processed order every
item with a `clusterHint` (including `""`) precedes every item without
one. -/
def hintedPrecedeUnhinted (stories : List (StoryWithEmbedding ℝ)) : Prop :=
  (sortStories stories).Pairwise
    (fun a b => b.cluster_id.isSome → a.cluster_id.isSome)

/-! ## Lemmas about the spiral search -/

theorem segScan_inl_free {occ : OccSet} {d : Nat} {cur h : HexCoordinate} {n : Nat}
    (hs : segScan occ d cur n = .inl h) : occ h = false := by
  induction n generalizing cur with
  | zero => simp [segScan] at hs
  | succ n ih =>
    rw [segScan] at hs
    by_cases hc : occ cur = true
    · rw [if_pos hc] at hs
      exact ih hs
    · rw [if_neg hc] at hs
      cases hs
      exact Bool.eq_false_iff.mpr hc

theorem segScan_inr_eq {occ : OccSet} {d : Nat} {cur cur' : HexCoordinate} {n : Nat}
    (hs : segScan occ d cur n = .inr cur') : cur' = moveN d cur n := by
  induction n generalizing cur with
  | zero =>
    rw [segScan] at hs
    cases hs
    rfl
  | succ n ih =>
    rw [segScan] at hs
    by_cases hc : occ cur = true
    · rw [if_pos hc] at hs
      exact ih hs
    · rw [if_neg hc] at hs
      cases hs

theorem segScan_inr_occupied {occ : OccSet} {d : Nat} {cur cur' : HexCoordinate} {n : Nat}
    (hs : segScan occ d cur n = .inr cur') : ∀ i < n, occ (moveN d cur i) = true := by
  induction n generalizing cur with
  | zero => omega
  | succ n ih =>
    rw [segScan] at hs
    by_cases hc : occ cur = true
    · rw [if_pos hc] at hs
      intro i hi
      match i with
      | 0 => exact hc
      | j + 1 => exact ih hs j (by omega)
    · rw [if_neg hc] at hs
      cases hs

theorem segScan_all_occupied {occ : OccSet} {d : Nat} {cur : HexCoordinate} {n : Nat}
    (h : ∀ i < n, occ (moveN d cur i) = true) : segScan occ d cur n = .inr (moveN d cur n) := by
  induction n generalizing cur with
  | zero => rfl
  | succ n ih =>
    have h0 : occ cur = true := h 0 (by omega)
    rw [segScan, if_pos h0]
    exact ih (fun i hi => h (i + 1) (by omega))

theorem ringScan_some_free {occ : OccSet} {radius : Nat} {cur h : HexCoordinate}
    {ds : List Nat} (hs : ringScan occ radius cur ds = some h) : occ h = false := by
  induction ds generalizing cur with
  | nil => simp [ringScan] at hs
  | cons d ds ih =>
    rw [ringScan] at hs
    cases hseg : segScan occ d cur radius with
    | inl hfree =>
      rw [hseg] at hs
      cases hs
      exact segScan_inl_free hseg
    | inr cur2 =>
      rw [hseg] at hs
      exact ih hs

theorem ringScan_all_occupied {occ : OccSet} {radius : Nat} {cur : HexCoordinate}
    {ds : List Nat} (h : ∀ x ∈ walkCells radius cur ds, occ x = true) :
    ringScan occ radius cur ds = none := by
  induction ds generalizing cur with
  | nil => rfl
  | cons d ds ih =>
    rw [ringScan, segScan_all_occupied (fun i hi => h (moveN d cur i) (by
      rw [walkCells]
      exact List.mem_append_left _ (List.mem_map.mpr ⟨i, List.mem_range.mpr hi, rfl⟩)))]
    exact ih (fun x hx => h x (by rw [walkCells]; exact List.mem_append_right _ hx))

theorem ringScan_none_occupied {occ : OccSet} {radius : Nat} {cur : HexCoordinate}
    {ds : List Nat} (hs : ringScan occ radius cur ds = none) :
    ∀ x ∈ walkCells radius cur ds, occ x = true := by
  induction ds generalizing cur with
  | nil => simp [walkCells]
  | cons d ds ih =>
    rw [ringScan] at hs
    cases hseg : segScan occ d cur radius with
    | inl hfree => rw [hseg] at hs; cases hs
    | inr cur2 =>
      rw [hseg] at hs
      intro x hx
      rw [walkCells, List.mem_append] at hx
      rcases hx with hx | hx
      · rcases List.mem_map.mp hx with ⟨i, hi, rfl⟩
        exact segScan_inr_occupied hseg i (List.mem_range.mp hi)
      · have h2 := segScan_inr_eq hseg
        subst h2
        exact ih hs x hx

theorem searchFrom_some_free {occ : OccSet} {center h : HexCoordinate} {radius rem : Nat}
    (hs : searchFrom occ center radius rem = some h) : occ h = false := by
  induction rem generalizing radius with
  | zero => simp [searchFrom] at hs
  | succ rem ih =>
    rw [searchFrom] at hs
    cases hr : ringScan occ radius (moveN 4 center radius) [0, 1, 2, 3, 4, 5] with
    | some h2 =>
      rw [hr] at hs
      cases hs
      exact ringScan_some_free hr
    | none =>
      rw [hr] at hs
      exact ih hs

theorem searchFrom_all_occupied {occ : OccSet} {center : HexCoordinate} {radius rem : Nat}
    (h : ∀ ρ, radius ≤ ρ → ρ < radius + rem → ∀ x ∈ ringCells center ρ, occ x = true) :
    searchFrom occ center radius rem = none := by
  induction rem generalizing radius with
  | zero => rfl
  | succ rem ih =>
    rw [searchFrom,
      ringScan_all_occupied (h radius (le_refl _) (by omega))]
    exact ih (fun ρ h1 h2 => h ρ (by omega) (by omega))

theorem searchFrom_none_occupied {occ : OccSet} {center : HexCoordinate} {radius rem : Nat}
    (hs : searchFrom occ center radius rem = none) :
    ∀ ρ, radius ≤ ρ → ρ < radius + rem → ∀ x ∈ ringCells center ρ, occ x = true := by
  induction rem generalizing radius with
  | zero => omega
  | succ rem ih =>
    rw [searchFrom] at hs
    cases hr : ringScan occ radius (moveN 4 center radius) [0, 1, 2, 3, 4, 5] with
    | some h2 => rw [hr] at hs; cases hs
    | none =>
      rw [hr] at hs
      intro ρ h1 h2
      by_cases hρ : ρ = radius
      · subst hρ
        exact ringScan_none_occupied hr
      · exact ih hs ρ (by omega) (by omega)

theorem findAvailableHex_some_free {occ : OccSet} {center h : HexCoordinate}
    {maxRadius : Nat} (hs : findAvailableHex center occ maxRadius = some h) :
    occ h = false := by
  rw [findAvailableHex] at hs
  by_cases hc : occ center = true
  · rw [if_pos hc] at hs
    exact searchFrom_some_free hs
  · rw [if_neg hc] at hs
    cases hs
    exact Bool.eq_false_iff.mpr hc

theorem findAvailableHex_none_center {occ : OccSet} {center : HexCoordinate}
    {maxRadius : Nat} (hs : findAvailableHex center occ maxRadius = none) :
    occ center = true := by
  rw [findAvailableHex] at hs
  by_cases hc : occ center = true
  · exact hc
  · rw [if_neg hc] at hs
    cases hs

theorem findAvailableHex_none_path {occ : OccSet} {center : HexCoordinate}
    {maxRadius : Nat} (hs : findAvailableHex center occ maxRadius = none) :
    ∀ x ∈ searchPath center maxRadius, occ x = true := by
  rw [findAvailableHex] at hs
  by_cases hc : occ center = true
  · rw [if_pos hc] at hs
    intro x hx
    rw [searchPath, List.mem_flatten] at hx
    rcases hx with ⟨l, hl, hx⟩
    rcases List.mem_map.mp hl with ⟨i, hi, rfl⟩
    have hi' := List.mem_range.mp hi
    exact searchFrom_none_occupied hs (i + 1) (by omega) (by omega) x hx
  · rw [if_neg hc] at hs
    cases hs

theorem findAvailableHex_free_on_path {occ : OccSet} {center : HexCoordinate}
    {maxRadius : Nat}
    (h : ∃ x ∈ center :: searchPath center maxRadius, occ x = false) :
    ∃ h2, findAvailableHex center occ maxRadius = some h2 ∧ occ h2 = false := by
  cases hres : findAvailableHex center occ maxRadius with
  | some h2 => exact ⟨h2, rfl, findAvailableHex_some_free hres⟩
  | none =>
    exfalso
    rcases h with ⟨x, hx, hfree⟩
    rcases List.mem_cons.mp hx with rfl | hx
    · rw [findAvailableHex_none_center hres] at hfree
      cases hfree
    · rw [findAvailableHex_none_path hres x hx] at hfree
      cases hfree

theorem findAvailableHex_allOccupied (center : HexCoordinate) (maxRadius : Nat) :
    findAvailableHex center (fun _ => true) maxRadius = none := by
  rw [findAvailableHex, if_pos rfl]
  exact searchFrom_all_occupied (fun ρ h1 h2 x hx => rfl)

/-! ## Geometry of the ring walk -/

theorem moveN_dir_closed {d : Nat} {dq dr : Int}
    (hstep : ∀ h : HexCoordinate, hexStep d h = ⟨h.q + dq, h.r + dr⟩) (h : HexCoordinate) :
    ∀ n : Nat, moveN d h n = ⟨h.q + n * dq, h.r + n * dr⟩ := by
  intro n
  induction n generalizing h with
  | zero => simp [moveN]
  | succ n ih =>
    rw [moveN, hstep, ih]
    simp only [HexCoordinate.mk.injEq]
    constructor <;> push_cast <;> ring

theorem moveN_dir0 (h : HexCoordinate) (n : Nat) :
    moveN 0 h n = ⟨h.q + n * 1, h.r + n * 0⟩ :=
  moveN_dir_closed (fun h2 => by
    show (⟨h2.q + 1, h2.r⟩ : HexCoordinate) = _
    simp) h n

theorem moveN_dir1 (h : HexCoordinate) (n : Nat) :
    moveN 1 h n = ⟨h.q + n * 1, h.r + n * (-1)⟩ :=
  moveN_dir_closed (fun h2 => by
    show (⟨h2.q + 1, h2.r - 1⟩ : HexCoordinate) = _
    simp [sub_eq_add_neg]) h n

theorem moveN_dir2 (h : HexCoordinate) (n : Nat) :
    moveN 2 h n = ⟨h.q + n * 0, h.r + n * (-1)⟩ :=
  moveN_dir_closed (fun h2 => by
    show (⟨h2.q, h2.r - 1⟩ : HexCoordinate) = _
    simp [sub_eq_add_neg]) h n

theorem moveN_dir3 (h : HexCoordinate) (n : Nat) :
    moveN 3 h n = ⟨h.q + n * (-1), h.r + n * 0⟩ :=
  moveN_dir_closed (fun h2 => by
    show (⟨h2.q - 1, h2.r⟩ : HexCoordinate) = _
    simp [sub_eq_add_neg]) h n

theorem moveN_dir4 (h : HexCoordinate) (n : Nat) :
    moveN 4 h n = ⟨h.q + n * (-1), h.r + n * 1⟩ :=
  moveN_dir_closed (fun h2 => by
    show (⟨h2.q - 1, h2.r + 1⟩ : HexCoordinate) = _
    simp [sub_eq_add_neg]) h n

theorem moveN_dir5 (h : HexCoordinate) (n : Nat) :
    moveN 5 h n = ⟨h.q + n * 0, h.r + n * 1⟩ :=
  moveN_dir_closed (fun h2 => by
    show (⟨h2.q, h2.r + 1⟩ : HexCoordinate) = _
    simp) h n

theorem ringCells_distSum {center x : HexCoordinate} {ρ : Nat}
    (hx : x ∈ ringCells center ρ) : hexDistSum center x = 2 * ρ := by
  rw [ringCells] at hx
  simp only [walkCells, List.mem_append, List.mem_map, List.mem_range,
    List.not_mem_nil, or_false] at hx
  rcases hx with ⟨i, hi, rfl⟩ | ⟨i, hi, rfl⟩ | ⟨i, hi, rfl⟩ | ⟨i, hi, rfl⟩ | ⟨i, hi, rfl⟩ |
    ⟨i, hi, rfl⟩ <;>
    simp only [moveN_dir0, moveN_dir1, moveN_dir2, moveN_dir3, moveN_dir4, moveN_dir5,
      hexDistSum] <;>
    omega

theorem hexDistance_of_ringCells {center x : HexCoordinate} {ρ : Nat}
    (hx : x ∈ ringCells center ρ) : hexDistance center x = (ρ : ℚ) := by
  rw [hexDistance, ringCells_distSum hx]
  push_cast
  ring

theorem hexDistance_self (a : HexCoordinate) : hexDistance a a = 0 := by
  simp [hexDistance, hexDistSum]

/-! ## Claims C2, C4 about the collision resolver -/

/-- C2: `findAvailableHex` returns `center` unchanged when `center` is not
in `occupied`; when at least one free cell exists within distance
`maxRadius` along its search path it returns a cell not present in
`occupied`; and when no free cell exists within distance `maxRadius` it
returns `null`. -/
theorem findAvailableHex_contract (center : HexCoordinate) (occ : OccSet) (maxRadius : Nat) :
    (occ center = false → findAvailableHex center occ maxRadius = some center) ∧
    ((∃ x ∈ center :: searchPath center maxRadius, occ x = false) →
      ∃ h, findAvailableHex center occ maxRadius = some h ∧ occ h = false) ∧
    ((∀ x : HexCoordinate, hexDistance center x ≤ (maxRadius : ℚ) → occ x = true) →
      findAvailableHex center occ maxRadius = none) := by
  refine ⟨fun hc => ?_, findAvailableHex_free_on_path, fun hall => ?_⟩
  · rw [findAvailableHex, if_neg (by simp [hc])]
  · have hcenter : occ center = true := by
      refine hall center ?_
      rw [hexDistance_self]
      positivity
    rw [findAvailableHex, if_pos hcenter]
    refine searchFrom_all_occupied (fun ρ h1 h2 x hx => ?_)
    refine hall x ?_
    rw [hexDistance_of_ringCells hx]
    exact_mod_cast by omega

/-- Witness for C2 at concrete inputs: a free center is returned as is; with
`(0,0)` and its fourth neighbor occupied and `maxRadius = 1` a free
non-occupied cell is returned; with every cell occupied the result is
`null`. -/
theorem findAvailableHex_contract_witness :
    findAvailableHex ⟨0, 0⟩ emptyOcc 3 = some ⟨0, 0⟩ ∧
    (∃ h, findAvailableHex ⟨0, 0⟩ (occPattern false false false false true false) 1 = some h ∧
      occPattern false false false false true false h = false) ∧
    findAvailableHex ⟨0, 0⟩ (fun _ => true) 2 = none :=
  ⟨(findAvailableHex_contract ⟨0, 0⟩ emptyOcc 3).1 rfl,
   (findAvailableHex_contract ⟨0, 0⟩ (occPattern false false false false true false) 1).2.1
     (by decide),
   (findAvailableHex_contract ⟨0, 0⟩ (fun _ => true) 2).2.2 (fun x _ => rfl)⟩

/-- C4 counterexample: with `occupied = {(0,0), (-1,1)}` (center plus the
neighbor in direction index 4) and `maxRadius = 1`, `findAvailableHex`
returns `(0,1)` — the neighbor in direction index 5 — while the first free
cell in the spec's claimed visit order `4,0,1,2,3,5` would be `(1,0)` (the
neighbor in direction index 0). -/
theorem ring1_claimed_order_counterexample :
    findAvailableHex ⟨0, 0⟩ (occPattern false false false false true false) 1 = some ⟨0, 1⟩ ∧
    (claimedVisitOrder ⟨0, 0⟩).find?
      (fun h => !occPattern false false false false true false h) = some ⟨1, 0⟩ ∧
    (some (⟨0, 1⟩ : HexCoordinate) ≠ some ⟨1, 0⟩) := by decide

/-- C4 (amended): with `occupied = {"0,0"} ∪ pattern`, `center = (0,0)` and
`maxRadius = 1`, `findAvailableHex` returns the first free ring-1 cell in
neighbor-direction visit order `4, 5, 0, 1, 2, 3` (not `4,0,1,2,3,5`), for
every occupancy pattern of the six neighbors that leaves at least one
free. -/
theorem ring1_first_free_in_visit_order :
    ∀ b0 b1 b2 b3 b4 b5 : Bool, (b0 && b1 && b2 && b3 && b4 && b5) = false →
    findAvailableHex ⟨0, 0⟩ (occPattern b0 b1 b2 b3 b4 b5) 1 =
      (ring1VisitOrder ⟨0, 0⟩).find? (fun h => !occPattern b0 b1 b2 b3 b4 b5 h) := by
  decide

/-- Witness for the amended C4: with the five neighbors in directions
0..4 occupied and the one in direction 5 free, the search returns it. -/
theorem ring1_first_free_in_visit_order_witness :
    findAvailableHex ⟨0, 0⟩ (occPattern true true true true true false) 1 =
      (ring1VisitOrder ⟨0, 0⟩).find? (fun h => !occPattern true true true true true false h) :=
  ring1_first_free_in_visit_order true true true true true false (by decide)

/-! ## Claim C3: the exhaustion fallback of `placeStory` -/

/-- C3: when `findAvailableHex` returns `null` (all cells within
`maxRadius = 200` of the ideal hex occupied), `placeStory` returns the
original ideal hex — which is at that point necessarily occupied — instead
of propagating the `null`; the per-item placement always yields a hex
coordinate and exhaustion is not surfaced as an error. -/
theorem placeStory_exhaustion_returns_occupied_ideal (x y : ℝ) (norm : UMAPNormalization ℝ)
    (config : PlacementConfig ℝ) (occ : OccSet)
    (hex : findAvailableHex (idealHexFor (Real.sqrt 3) x y norm config) occ 200 = none) :
    placeStory (Real.sqrt 3) x y norm occ config = idealHexFor (Real.sqrt 3) x y norm config ∧
    occ (idealHexFor (Real.sqrt 3) x y norm config) = true := by
  constructor
  · rw [placeStory, hex]
  · exact findAvailableHex_none_center hex

/-- Witness for C3: with every cell occupied, `placeStory` returns the
(occupied) ideal hex. -/
theorem placeStory_exhaustion_witness :
    placeStory (Real.sqrt 3) 1 1 ⟨0, 2, 0, 2⟩ (fun _ => true) ⟨900, 600, 14, 20⟩ =
      idealHexFor (Real.sqrt 3) 1 1 ⟨0, 2, 0, 2⟩ ⟨900, 600, 14, 20⟩ ∧
    (fun _ => true : OccSet)
      (idealHexFor (Real.sqrt 3) 1 1 ⟨0, 2, 0, 2⟩ ⟨900, 600, 14, 20⟩) = true :=
  placeStory_exhaustion_returns_occupied_ideal 1 1 ⟨0, 2, 0, 2⟩ ⟨900, 600, 14, 20⟩
    (fun _ => true) (findAvailableHex_allOccupied _ 200)

/-! ## Claim C5: the entry point for fewer than 2 items -/

/-- C5: the hook-level `computePlacement` never dispatches to the worker
(which runs the reduction stage) for fewer than 2 stories: an empty list
yields an empty placements map immediately, and a single story is placed at
`{q:0, r:0}`; independently, the worker itself returns an empty result for
an empty list before invoking the reduction stage. -/
theorem hook_small_inputs (stories : List (StoryWithEmbedding ℝ))
    (norm : UMAPNormalization ℝ) (config : PlacementConfig ℝ) :
    (stories.length = 0 → hookComputePlacement stories norm config = .immediate []) ∧
    (∀ s, stories = [s] → hookComputePlacement stories norm config = .immediate [(s.id, ⟨0, 0⟩)]) ∧
    (stories.length < 2 →
      ∀ st n c, hookComputePlacement stories norm config ≠ .dispatch st n c) ∧
    (∀ coords,
      workerComputePlacement (Real.sqrt 3) ([] : List (StoryWithEmbedding ℝ)) coords norm config =
        .ok []) := by
  refine ⟨fun h0 => ?_, fun s hs => ?_, fun hlt st n c => ?_, fun coords => rfl⟩
  · rw [hookComputePlacement, if_pos h0]
  · subst hs
    rw [hookComputePlacement]
    norm_num
  · rw [hookComputePlacement]
    match stories, hlt with
    | [], _ =>
      simp only [List.length_nil, if_pos rfl]
      exact fun h => HookOutcome.noConfusion h
    | [s], _ =>
      norm_num
      exact fun h => HookOutcome.noConfusion h
    | s1 :: s2 :: rest, hlt => exact absurd hlt (by simp)

/-- Witness for C5 at a concrete single story. -/
theorem hook_small_inputs_witness :
    hookComputePlacement [⟨"a", "", [], none⟩] (⟨0, 2, 0, 2⟩ : UMAPNormalization ℝ)
      ⟨900, 600, 14, 20⟩ = .immediate [("a", ⟨0, 0⟩)] :=
  (hook_small_inputs [⟨"a", "", [], none⟩] ⟨0, 2, 0, 2⟩ ⟨900, 600, 14, 20⟩).2.1
    ⟨"a", "", [], none⟩ rfl

/-! ## Claim C7: the neighbor-count parameter -/

/-- C7 counterexample: at `N = 2` the worker computes `nNeighbors = 2`,
which is not strictly less than `N`. -/
theorem nNeighbors_not_lt_at_two : nNeighborsFor 2 = 2 ∧ ¬nNeighborsFor 2 < 2 := by
  have h2 : Nat.sqrt 2 = 1 := (Nat.eq_sqrt.mpr (by norm_num)).symm
  refine ⟨?_, ?_⟩ <;> simp [nNeighborsFor, h2]

/-- C7 (amended): for every `N ≥ 2` the neighbor-count parameter equals
`clamp(⌊√N⌋, 2, min(15, N-1))` with the lower bound dominating when the
bounds cross, and it is strictly less than `N` for every `N ≥ 3` (at
`N = 2` it equals `2 = N`). -/
theorem nNeighbors_formula (n : Nat) (hn : 2 ≤ n) :
    nNeighborsFor n = claimedNNeighbors n ∧ (3 ≤ n → nNeighborsFor n < n) := by
  simp only [nNeighborsFor, claimedNNeighbors]
  omega

/-- Witness for the amended C7 at `N = 9`. -/
theorem nNeighbors_formula_witness :
    nNeighborsFor 9 = claimedNNeighbors 9 ∧ nNeighborsFor 9 < 9 :=
  ⟨(nNeighbors_formula 9 (by norm_num)).1, (nNeighbors_formula 9 (by norm_num)).2 (by norm_num)⟩

/-! ## Claims C9, C10 about the clustering engine -/

theorem kMeansIter_length {α : Type} [LinearOrderedField α] (sqrtFn : α → α)
    (embeddings : List (List α)) (dimension : Nat) :
    ∀ (n : Nat) (centroids : List (List α)) (assignments : List Nat),
      assignments.length = embeddings.length →
      (kMeansIter sqrtFn embeddings dimension n centroids assignments).length =
        embeddings.length := by
  intro n
  induction n with
  | zero => intro centroids assignments h; exact h
  | succ n ih =>
    intro centroids assignments h
    rw [kMeansIter]
    by_cases hchg :
        embeddings.map (fun e => nearestCentroidIdx sqrtFn e centroids) = assignments
    · rw [if_pos hchg]
      exact h
    · rw [if_neg hchg]
      exact ih _ _ (by simp)

theorem kMeansClustering_length {α : Type} [LinearOrderedField α] (sqrtFn : α → α)
    (embeddings : List (List α)) (k : Nat) (rand : Nat → Nat) (maxIterations : Nat) :
    (kMeansClustering sqrtFn embeddings k rand maxIterations).length = embeddings.length := by
  rw [kMeansClustering]
  by_cases h0 : embeddings.length = 0
  · rw [if_pos h0, h0]
    rfl
  · rw [if_neg h0]
    by_cases hk : k ≥ embeddings.length
    · rw [if_pos hk]
      exact List.length_range _
    · rw [if_neg hk]
      exact kMeansIter_length sqrtFn embeddings _ _ _ _ (List.length_replicate _ _)

/-- C10 (implicit): `cosineSimilarity` returns `0` for vectors of unequal
length instead of raising an error, so the k-means distance
`1 - cosineSimilarity` of a dimension-mismatched item/centroid pair is `1`,
and `kMeansClustering` proceeds silently (returning one cluster index per
item) even when embedding dimensions are inconsistent. -/
theorem cosineSimilarity_length_mismatch (a b : List ℝ) (h : a.length ≠ b.length) :
    cosineSimilarity Real.sqrt a b = 0 ∧
    1 - cosineSimilarity Real.sqrt a b = 1 ∧
    ∀ (embeddings : List (List ℝ)) (k : Nat) (rand : Nat → Nat) (maxIterations : Nat),
      (kMeansClustering Real.sqrt embeddings k rand maxIterations).length =
        embeddings.length := by
  have h0 : cosineSimilarity Real.sqrt a b = 0 := by
    rw [cosineSimilarity, if_pos h]
  exact ⟨h0, by rw [h0, sub_zero],
    fun embeddings k rand maxIterations => kMeansClustering_length _ _ _ _ _⟩

/-- Witness for C10 at `a = [1]`, `b = [1, 2]`. -/
theorem cosineSimilarity_length_mismatch_witness :
    cosineSimilarity Real.sqrt [1] [1, 2] = 0 ∧
    1 - cosineSimilarity Real.sqrt [1] [1, 2] = 1 ∧
    ∀ (embeddings : List (List ℝ)) (k : Nat) (rand : Nat → Nat) (maxIterations : Nat),
      (kMeansClustering Real.sqrt embeddings k rand maxIterations).length =
        embeddings.length :=
  cosineSimilarity_length_mismatch [1] [1, 2] (by simp)

/-- C9: when `k = min(themes.length, validItemCount)` equals the number of
valid items (and themes are non-empty), the clustering step of
`assignStoriesToThemes` assigns every valid item its own distinct cluster
index, before the modulo mapping onto theme ids. -/
theorem clusterAssignments_all_distinct (stories : List BaseStory)
    (embMap : String → Option (List ℝ)) (themes : List Theme) (rand : Nat → Nat)
    (hthemes : themes ≠ [])
    (hk : min themes.length (validStoriesFor stories embMap).length =
      (validStoriesFor stories embMap).length) :
    (clusterAssignmentsFor Real.sqrt stories embMap themes rand).Nodup ∧
    (clusterAssignmentsFor Real.sqrt stories embMap themes rand).length =
      (validStoriesFor stories embMap).length := by
  rw [clusterAssignmentsFor, kMeansClustering]
  have hlen : ((validStoriesFor stories embMap).map
      (fun s => (embMap s.id).getD [])).length = (validStoriesFor stories embMap).length :=
    List.length_map _ _
  by_cases h0 : ((validStoriesFor stories embMap).map
      (fun s => (embMap s.id).getD [])).length = 0
  · rw [if_pos h0]
    refine ⟨List.nodup_nil, ?_⟩
    rw [← hlen, h0]
    rfl
  · rw [if_neg h0, if_pos (by rw [hlen]; omega)]
    exact ⟨List.nodup_range _, by rw [List.length_range, hlen]⟩

/-- Witness for C9: two stories with embeddings, two themes. -/
theorem clusterAssignments_all_distinct_witness :
    (clusterAssignmentsFor Real.sqrt [⟨"a", "sa"⟩, ⟨"b", "sb"⟩]
      (fun id => if id = "a" then some [(1 : ℝ)] else if id = "b" then some [0] else none)
      [⟨"t1", "T1"⟩, ⟨"t2", "T2"⟩] (fun _ => 0)).Nodup ∧
    (clusterAssignmentsFor Real.sqrt [⟨"a", "sa"⟩, ⟨"b", "sb"⟩]
      (fun id => if id = "a" then some [(1 : ℝ)] else if id = "b" then some [0] else none)
      [⟨"t1", "T1"⟩, ⟨"t2", "T2"⟩] (fun _ => 0)).length =
      (validStoriesFor [⟨"a", "sa"⟩, ⟨"b", "sb"⟩]
        (fun id => if id = "a" then some [(1 : ℝ)] else if id = "b" then some [0] else none)).length :=
  clusterAssignments_all_distinct [⟨"a", "sa"⟩, ⟨"b", "sb"⟩]
    (fun id => if id = "a" then some [(1 : ℝ)] else if id = "b" then some [0] else none)
    [⟨"t1", "T1"⟩, ⟨"t2", "T2"⟩] (fun _ => 0) (by simp) rfl

/-! ## Claim C8: the processing order of `computePlacement` -/

theorem localeCompareInt_nonpos (x y : String) : localeCompareInt x y ≤ 0 ↔ x ≤ y := by
  rw [localeCompareInt]
  rcases lt_trichotomy x y with hlt | heq | hgt
  · rw [if_pos hlt]
    simp [le_of_lt hlt]
  · subst heq
    rw [if_neg (lt_irrefl x), if_neg (lt_irrefl x)]
    simp
  · rw [if_neg (not_lt_of_gt hgt), if_pos hgt]
    constructor
    · intro h
      exact absurd h (by norm_num)
    · intro h
      exact absurd h (not_le_of_gt hgt)

theorem storyLE_iff (a b : StoryWithEmbedding ℝ) :
    storyLE a b = true ↔
      (truthyHint b.cluster_id = false ∨
        (truthyHint a.cluster_id = true ∧ a.cluster_id.getD "" ≤ b.cluster_id.getD "")) := by
  rw [storyLE, decide_eq_true_eq, storyCmp]
  rcases Bool.eq_false_or_eq_true (truthyHint a.cluster_id) with ta | ta <;>
    rcases Bool.eq_false_or_eq_true (truthyHint b.cluster_id) with tb | tb
  · simp [ta, tb, localeCompareInt_nonpos]
  · simp [ta, tb]
  · simp [ta, tb]
  · simp [ta, tb]

theorem storyLE_trans (a b c : StoryWithEmbedding ℝ)
    (hab : storyLE a b) (hbc : storyLE b c) : storyLE a c := by
  rw [storyLE_iff] at hab hbc ⊢
  rcases hbc with h1 | ⟨h1, h2⟩
  · exact Or.inl h1
  · rcases hab with h3 | ⟨h3, h4⟩
    · rw [h1] at h3
      cases h3
    · exact Or.inr ⟨h3, le_trans h4 h2⟩

theorem storyLE_total (a b : StoryWithEmbedding ℝ) : storyLE a b || storyLE b a := by
  rw [Bool.or_eq_true, storyLE_iff, storyLE_iff]
  rcases Bool.eq_false_or_eq_true (truthyHint b.cluster_id) with tb | tb
  · rcases Bool.eq_false_or_eq_true (truthyHint a.cluster_id) with ta | ta
    · rcases le_total (a.cluster_id.getD "") (b.cluster_id.getD "") with h | h
      · exact Or.inl (Or.inr ⟨ta, h⟩)
      · exact Or.inr (Or.inr ⟨tb, h⟩)
    · exact Or.inr (Or.inl ta)
  · exact Or.inl (Or.inl tb)

/-- C8 counterexample: a story whose `cluster_id` is the empty string is
falsy in the comparator, so it compares equal to a story with no hint at
all and the stable sort leaves it *after* such a story — the sorted order
is `[no-hint, empty-hint]`, while the claim demands every hinted item
(including an `""` hint) precede every unhinted one. -/
theorem hint_order_counterexample :
    ¬hintedPrecedeUnhinted [⟨"x", "", [], none⟩, ⟨"y", "", [], some ""⟩] := by
  intro hcontra
  rw [hintedPrecedeUnhinted] at hcontra
  have heq : sortStories [(⟨"x", "", [], none⟩ : StoryWithEmbedding ℝ), ⟨"y", "", [], some ""⟩] =
      [⟨"x", "", [], none⟩, ⟨"y", "", [], some ""⟩] :=
    List.mergeSort_of_sorted (List.pairwise_pair.mpr (by decide))
  rw [heq] at hcontra
  have hxy := List.rel_of_pairwise_cons hcontra (List.mem_singleton.mpr rfl)
  simp at hxy

/-- C8 (amended): in the processed order, every item with a *non-empty*
`clusterHint` precedes every item whose hint is absent or empty, and among
items with non-empty hints the hints ascend lexicographically; an item
whose hint is the empty string is treated exactly like an item without a
hint (JavaScript truthiness), and the sort is stable among equals. -/
theorem sortStories_order (stories : List (StoryWithEmbedding ℝ)) :
    (sortStories stories).Pairwise (fun a b =>
      (truthyHint b.cluster_id = true → truthyHint a.cluster_id = true) ∧
      (truthyHint a.cluster_id = true → truthyHint b.cluster_id = true →
        a.cluster_id.getD "" ≤ b.cluster_id.getD "")) := by
  have hs := @List.sorted_mergeSort (StoryWithEmbedding ℝ) storyLE
    (fun a b c hab hbc => storyLE_trans a b c hab hbc)
    (fun a b => storyLE_total a b) stories
  refine hs.imp ?_
  intro a b hab
  rw [storyLE_iff] at hab
  constructor
  · intro htb
    rcases hab with h | ⟨h, _⟩
    · rw [htb] at h
      cases h
    · exact h
  · intro hta htb
    rcases hab with h | ⟨_, h⟩
    · rw [htb] at h
      cases h
    · exact h

/-! ## Claim C6: the hex/pixel round trip -/

theorem cubeRound_intCast {α : Type} [LinearOrderedField α] [FloorRing α] (a b c : ℤ) :
    cubeRound (⟨(a : α), (b : α), (c : α)⟩ : CubeCoordinate α) = ⟨a, b⟩ := by
  have hfloor : ∀ z : ℤ, ⌊(z : α) + 1 / 2⌋ = z := by
    intro z
    rw [← round_eq, round_intCast]
  simp only [cubeRound, hfloor, sub_self, abs_zero, gt_iff_lt, lt_irrefl, and_self,
    if_false, if_neg (lt_irrefl (0 : α))]

theorem pixelToHex_hexToPixel_general {α : Type} [LinearOrderedField α] [FloorRing α]
    (s3 : α) (hs3 : s3 * s3 = 3) (h : HexCoordinate) (R : α) (hR : R ≠ 0) :
    pixelToHex s3 (hexToPixel s3 h R) R = h := by
  have hsq : s3 ^ 2 = 3 := by
    rw [pow_two]
    exact hs3
  have hcast : cubeRound
      (⟨((h.q : ℤ) : α), ((h.r : ℤ) : α), (((-h.q - h.r : ℤ)) : α)⟩ : CubeCoordinate α) = h :=
    @cubeRound_intCast α _ _ h.q h.r (-h.q - h.r)
  simp only [pixelToHex, hexToPixel]
  refine (congrArg cubeRound ?_).trans hcast
  rw [CubeCoordinate.mk.injEq]
  refine ⟨?_, ?_, ?_⟩
  · field_simp
    ring
  · field_simp
    ring_nf
    rw [hsq]
    ring
  · push_cast
    field_simp
    ring_nf
    rw [hsq]
    ring

/-- C6: for every integer axial hex `h` and every radius `R > 0`,
`pixelToHex(hexToPixel(h, R), R) = h` — the conversion to pixel
coordinates and back through fractional cube coordinates and `cubeRound`
recovers the lattice point exactly. -/
theorem pixelToHex_hexToPixel_roundtrip (h : HexCoordinate) (R : ℝ) (hR : 0 < R) :
    pixelToHex (Real.sqrt 3) (hexToPixel (Real.sqrt 3) h R) R = h :=
  pixelToHex_hexToPixel_general (Real.sqrt 3) (Real.mul_self_sqrt (by norm_num)) h R
    (ne_of_gt hR)

/-- Witness for C6 at `h = (2, -1)`, `R = 14`. -/
theorem pixelToHex_hexToPixel_roundtrip_witness :
    pixelToHex (Real.sqrt 3) (hexToPixel (Real.sqrt 3) ⟨2, -1⟩ 14) 14 = ⟨2, -1⟩ :=
  pixelToHex_hexToPixel_roundtrip ⟨2, -1⟩ 14 (by norm_num)

/-! ## Claim C1: the placement loop of the worker -/

theorem mapSet_of_not_mem {m : List (String × HexCoordinate)} {k : String}
    (v : HexCoordinate) (hk : ∀ p ∈ m, p.1 ≠ k) : mapSet m k v = m ++ [(k, v)] := by
  rw [mapSet, if_neg]
  intro hany
  rcases List.any_eq_true.mp hany with ⟨p, hp, hpk⟩
  exact hk p hp (of_decide_eq_true hpk)

theorem placeStory_not_occupied {α : Type} [LinearOrderedField α] [FloorRing α]
    {s3 x y : α} {norm : UMAPNormalization α} {config : PlacementConfig α} {occ : OccSet}
    (hne : findAvailableHex (idealHexFor s3 x y norm config) occ 200 ≠ none) :
    occ (placeStory s3 x y norm occ config) = false := by
  rw [placeStory]
  cases hres : findAvailableHex (idealHexFor s3 x y norm config) occ 200 with
  | none => exact absurd hres hne
  | some h2 => exact findAvailableHex_some_free hres

theorem foldl_set_isSome {α : Type} [LinearOrderedField α] :
    ∀ (l : List (StoryWithEmbedding α × (α × α))) (init : String → Option (α × α))
      (id : String),
      ((∃ sc ∈ l, sc.1.id = id) ∨ (init id).isSome = true) →
      ((l.foldl (fun m sc => fun id => if id = sc.1.id then some sc.2 else m id) init) id).isSome
        = true := by
  intro l
  induction l with
  | nil =>
    intro init id h
    rcases h with ⟨sc, hmem, _⟩ | hinit
    · cases hmem
    · exact hinit
  | cons sc t ih =>
    intro init id h
    rw [List.foldl_cons]
    apply ih
    rcases h with ⟨sc2, hmem, hid⟩ | hinit
    · rcases List.mem_cons.mp hmem with rfl | hmem2
      · right
        simp [hid]
      · exact Or.inl ⟨sc2, hmem2, hid⟩
    · right
      by_cases hcase : id = sc.1.id
      · simp [hcase]
      · simp [hcase, hinit]

theorem buildUMAPMap_isSome {α : Type} [LinearOrderedField α]
    {stories : List (StoryWithEmbedding α)} {coords : List (α × α)}
    (hlen : stories.length ≤ coords.length) {s : StoryWithEmbedding α} (hs : s ∈ stories) :
    (buildUMAPMap stories coords s.id).isSome = true := by
  rw [buildUMAPMap]
  apply foldl_set_isSome
  left
  rcases List.mem_iff_getElem.mp hs with ⟨i, hi, hgi⟩
  have hzip : i < (stories.zip coords).length := by
    simp only [List.length_zip]
    omega
  refine ⟨(stories.zip coords)[i], List.getElem_mem hzip, ?_⟩
  simp only [List.getElem_zip]
  rw [hgi]

/-- `findAvailableHex` on the empty occupancy set returns the center at
once. -/
theorem findAvailableHex_emptyOcc (center : HexCoordinate) (mr : Nat) :
    findAvailableHex center emptyOcc mr = some center := by
  rw [findAvailableHex, if_neg (by simp [emptyOcc])]

/-- `placeStory` on the empty occupancy set returns the ideal hex. -/
theorem placeStory_emptyOcc {α : Type} [LinearOrderedField α] [FloorRing α]
    (s3 x y : α) (norm : UMAPNormalization α) (config : PlacementConfig α) :
    placeStory s3 x y norm emptyOcc config = idealHexFor s3 x y norm config := by
  rw [placeStory, findAvailableHex_emptyOcc]

/-- With only the center occupied, the spiral search returns the first
ring-1 cell, the neighbor in direction index 4. -/
theorem findAvailableHex_one_occupied (center : HexCoordinate) :
    findAvailableHex center (addOcc emptyOcc center) 200 = some (hexStep 4 center) := by
  have hocc2 : addOcc emptyOcc center (hexStep 4 center) = false := by
    simp only [addOcc, emptyOcc, Bool.or_false, decide_eq_false_iff_not]
    intro heq
    rw [show hexStep 4 center = ⟨center.q - 1, center.r + 1⟩ from rfl] at heq
    have hq := congrArg HexCoordinate.q heq
    simp only at hq
    omega
  rw [findAvailableHex, if_pos (by simp [addOcc, emptyOcc]), show (200 : Nat) = 199 + 1 from rfl,
    searchFrom]
  have hseg : segScan (addOcc emptyOcc center) 0 (moveN 4 center 1) 1 =
      .inl (hexStep 4 center) := by
    rw [show moveN 4 center 1 = hexStep 4 center from rfl, segScan,
      if_neg (by rw [hocc2]; exact Bool.false_ne_true)]
  rw [show (1 : Nat) = 0 + 1 from rfl] at hseg
  rw [ringScan, hseg]

theorem placeLoop_spec (norm : UMAPNormalization ℝ) (config : PlacementConfig ℝ)
    (m : String → Option (ℝ × ℝ)) :
    ∀ (rest : List (StoryWithEmbedding ℝ)) (pl : List (String × HexCoordinate)) (occ : OccSet),
      (∀ s ∈ rest, (m s.id).isSome = true) →
      (pl.map Prod.fst ++ rest.map StoryWithEmbedding.id).Nodup →
      (∀ h2 : HexCoordinate, occ h2 = true ↔ h2 ∈ pl.map Prod.snd) →
      (pl.map Prod.snd).Nodup →
      NoExhaustRun (Real.sqrt 3) m norm config rest occ →
      (placeLoop (Real.sqrt 3) m norm config rest pl occ).1.map Prod.fst =
        pl.map Prod.fst ++ rest.map StoryWithEmbedding.id ∧
      ((placeLoop (Real.sqrt 3) m norm config rest pl occ).1.map Prod.snd).Nodup := by
  intro rest
  induction rest with
  | nil =>
    intro pl occ _ _ _ hsnd _
    rw [placeLoop]
    simp [hsnd]
  | cons s t ih =>
    intro pl occ hm hnd hocc hsnd hnoex
    obtain ⟨c, hc⟩ := Option.isSome_iff_exists.mp (hm s (List.mem_cons_self s t))
    rw [placeLoop, hc]
    rw [NoExhaustRun, hc] at hnoex
    obtain ⟨hne, hnoex2⟩ := hnoex
    dsimp only
    have hfree : occ (placeStory (Real.sqrt 3) c.1 c.2 norm occ config) = false :=
      placeStory_not_occupied hne
    have hsid : s.id ∉ pl.map Prod.fst := by
      intro hmem
      rcases List.nodup_append.mp hnd with ⟨_, _, hdisj⟩
      exact hdisj hmem (List.mem_cons_self s.id _)
    have hset : mapSet pl s.id (placeStory (Real.sqrt 3) c.1 c.2 norm occ config) =
        pl ++ [(s.id, placeStory (Real.sqrt 3) c.1 c.2 norm occ config)] :=
      mapSet_of_not_mem _ (fun p hp hpk => hsid (hpk ▸ List.mem_map_of_mem Prod.fst hp))
    rw [hset]
    have hnotmem : placeStory (Real.sqrt 3) c.1 c.2 norm occ config ∉ pl.map Prod.snd := by
      intro hmem
      have htrue := (hocc _).mpr hmem
      rw [hfree] at htrue
      cases htrue
    have step := ih (pl ++ [(s.id, placeStory (Real.sqrt 3) c.1 c.2 norm occ config)])
      (addOcc occ (placeStory (Real.sqrt 3) c.1 c.2 norm occ config))
      (fun s2 hs2 => hm s2 (List.mem_cons_of_mem s hs2))
      (by
        rw [List.map_append]
        simp only [List.map_cons, List.map_nil]
        rw [List.append_assoc]
        exact hnd)
      (by
        intro h2
        rw [List.map_append]
        simp only [List.map_cons, List.map_nil]
        rw [addOcc]
        constructor
        · intro hh
          rcases Bool.or_eq_true _ _ |>.mp hh with hh | hh
          · exact List.mem_append_right _ (by simp [of_decide_eq_true hh])
          · exact List.mem_append_left _ ((hocc h2).mp hh)
        · intro hh
          rcases List.mem_append.mp hh with hh | hh
          · exact Bool.or_eq_true _ _ |>.mpr (Or.inr ((hocc h2).mpr hh))
          · simp at hh
            simp [hh])
      (by
        rw [List.map_append]
        simp only [List.map_cons, List.map_nil]
        rw [List.nodup_append]
        exact ⟨hsnd, List.nodup_singleton _, by
          intro a ha hmem
          simp at hmem
          rw [hmem] at ha
          exact hnotmem ha⟩)
      hnoex2
    refine ⟨?_, step.2⟩
    rw [step.1, List.map_append]
    simp only [List.map_cons, List.map_nil]
    rw [List.append_assoc]
    rfl

/-- C1: for every set of `N ≥ 2` stories with pairwise-distinct ids and
well-formed bounds (and one UMAP coordinate pair per story), the worker's
`computePlacement` succeeds with exactly `N` placements whose
`HexCoordinate` values are pairwise distinct, under the precondition that
the collision search (`maxRadius = 200`) never exhausts during the run. -/
theorem computePlacement_count_and_distinct (stories : List (StoryWithEmbedding ℝ))
    (coords : List (ℝ × ℝ)) (norm : UMAPNormalization ℝ) (config : PlacementConfig ℝ)
    (hN : 2 ≤ stories.length)
    (hids : (stories.map StoryWithEmbedding.id).Nodup)
    (hbx : norm.min_x < norm.max_x) (hby : norm.min_y < norm.max_y)
    (hlen : coords.length = stories.length)
    (hnoex : NoExhaustRun (Real.sqrt 3) (buildUMAPMap stories coords) norm config
      (sortStories stories) emptyOcc) :
    ∃ pl, workerComputePlacement (Real.sqrt 3) stories coords norm config = .ok pl ∧
      pl.length = stories.length ∧ (pl.map Prod.snd).Nodup := by
  rw [workerComputePlacement, if_neg (by omega), if_neg (by omega)]
  have hperm : List.Perm ((sortStories stories).map StoryWithEmbedding.id)
      (stories.map StoryWithEmbedding.id) :=
    (List.mergeSort_perm stories storyLE).map StoryWithEmbedding.id
  have hspec := placeLoop_spec norm config (buildUMAPMap stories coords)
    (sortStories stories) [] emptyOcc
    (fun s hs => buildUMAPMap_isSome (le_of_eq hlen.symm)
      (List.mem_mergeSort.mp hs))
    (by
      simp only [List.map_nil, List.nil_append]
      exact hperm.nodup_iff.mpr hids)
    (by
      intro h2
      simp [emptyOcc])
    List.nodup_nil
    hnoex
  refine ⟨_, rfl, ?_, hspec.2⟩
  have hlen2 := congrArg List.length hspec.1
  simp only [List.length_map, List.map_nil, List.nil_append] at hlen2
  rw [hlen2]
  exact List.length_mergeSort stories

/-- Witness for C1: two stories with distinct ids and identical UMAP
coordinates; the first claims the ideal cell, the second is pushed to a
ring-1 neighbor, so the search never exhausts. -/
theorem computePlacement_count_and_distinct_witness :
    ∃ pl, workerComputePlacement (Real.sqrt 3)
        [⟨"a", "", [1], none⟩, ⟨"b", "", [0], none⟩] [(1, 1), (1, 1)]
        ⟨0, 2, 0, 2⟩ ⟨900, 600, 14, 20⟩ = .ok pl ∧
      pl.length = 2 ∧ (pl.map Prod.snd).Nodup := by
  have hsort : sortStories
      [(⟨"a", "", [1], none⟩ : StoryWithEmbedding ℝ), ⟨"b", "", [0], none⟩] =
      [⟨"a", "", [1], none⟩, ⟨"b", "", [0], none⟩] :=
    List.mergeSort_of_sorted (List.pairwise_pair.mpr (by decide))
  refine computePlacement_count_and_distinct
    [⟨"a", "", [1], none⟩, ⟨"b", "", [0], none⟩] [(1, 1), (1, 1)]
    ⟨0, 2, 0, 2⟩ ⟨900, 600, 14, 20⟩ (by norm_num) (by decide) (by norm_num) (by norm_num)
    rfl ?_
  rw [hsort]
  refine ⟨?_, ?_, trivial⟩
  · rw [findAvailableHex_emptyOcc]
    exact Option.some_ne_none _
  · rw [placeStory_emptyOcc, findAvailableHex_one_occupied]
    exact Option.some_ne_none _
